import Mathlib

set_option maxHeartbeats 1000000

/-! Shallow embedding of `src/load_snapshots.py`: a daily snapshot pipeline
that dumps Postgres tables into object storage as newline-delimited JSON and
bulk-loads each blob into the `snapshots` schema of a warehouse.  The clock
(`datetime.today()`), the source tables, the storage service and the warehouse
are modelled as explicit inputs; each run is reduced to the trace of external
effects it performs together with its terminal error, so that the claimed
invariants can be stated over traces. -/

/-- Calendar date, as produced by `datetime.today() - timedelta(days=1)`. -/
structure Date where
  year : Nat
  month : Nat
  day : Nat
deriving DecidableEq

/-- A timestamp value (calendar date plus seconds within the day), as stored
in `created_at` columns; `DATE(created_at)` in SQL projects the `date` field. -/
structure Timestamp where
  date : Date
  secs : Nat
deriving DecidableEq

/-- Column values flowing out of the source cursor. -/
inductive Value where
  | vnull : Value
  | vint : Int → Value
  | vstr : String → Value
  | vdate : Date → Value
  | vts : Timestamp → Value
deriving DecidableEq

/-- Zero-padding to two digits, as `strftime("%m")` and `strftime("%d")` do. -/
def pad2 (n : Nat) : String :=
  if n < 10 then "0" ++ toString n else toString n

/-- `strftime("%Y-%m-%d")` on a date (line 30 of the source). -/
def dateStr (d : Date) : String :=
  toString d.year ++ "-" ++ pad2 d.month ++ "-" ++ pad2 d.day

/-- The partition fragment built in `main` (lines 68-73):
`snapshot_year=Y/snapshot_month=MM/snapshot_day=DD`, month and day padded. -/
def dateParams (d : Date) : String :=
  "snapshot_year=" ++ toString d.year ++ "/snapshot_month=" ++ pad2 d.month ++
    "/snapshot_day=" ++ pad2 d.day

/-- Destination path `<ds>/<dateParams>/<leaf>`, the way `dump_to` is built in
`main` (lines 75, 88, 102). -/
def pathFor (d : Date) (ds leaf : String) : String :=
  ds ++ "/" ++ dateParams d ++ "/" ++ leaf

/-- Python `dict.__setitem__` on an association list whose keys are unique:
replace the value of an existing key in place (keeping its position),
otherwise append the new pair at the end. -/
def dictInsert : List (String × Value) → String → Value → List (String × Value)
  | [], k, v => [(k, v)]
  | p :: rest, k, v => if p.1 = k then (k, v) :: rest else p :: dictInsert rest k v

/-- The assignment loop of `dump` (lines 31-32):
`for idx, col in enumerate(curs.description): data[col.name] = row[idx]`. -/
def updAll (d : List (String × Value)) (ps : List (String × Value)) : List (String × Value) :=
  ps.foldl (fun acc p => dictInsert acc p.1 p.2) d

/-- The record built for one row in `dump` (lines 29-32): start from the
singleton dict carrying the snapshot date, then assign every cursor column. -/
def rowRecord (snap : String) (cols : List String) (row : List Value) : List (String × Value) :=
  updAll [("snapshot_date", Value.vstr snap)] (cols.zip row)

/-- Escape of one character inside a JSON string literal. -/
def escapeChar (c : Char) : String :=
  if c = '"' then "\\\"" else if c = '\\' then "\\\\" else String.singleton c

/-- Escape of a whole JSON string body. -/
def escapeStr (s : String) : String :=
  String.join (s.data.map escapeChar)

/-- A JSON string literal. -/
def jsonStr (s : String) : String := "\"" ++ escapeStr s ++ "\""

/-- Modelled from the spec: `helpers.date_string_or_none` is imported by the
source (line 14) but `helpers.py` is not under `src/`.  Per spec section 4.1,
values of date/time type serialize to ISO-8601 date strings and absent values
to a null marker; `json.dumps` only consults this fallback for values it
cannot natively encode. -/
def date_string_or_none : Value → Option String
  | Value.vdate d => some (dateStr d)
  | Value.vts t => some (dateStr t.date)
  | _ => none

/-- `json.dumps` rendering of one value, using `date_string_or_none` as the
`default=` fallback for the non-native date and timestamp values. -/
def encValue : Value → String
  | Value.vnull => "null"
  | Value.vint n => toString n
  | Value.vstr s => jsonStr s
  | Value.vdate d =>
      match date_string_or_none (Value.vdate d) with
      | some s => jsonStr s
      | none => "null"
  | Value.vts t =>
      match date_string_or_none (Value.vts t) with
      | some s => jsonStr s
      | none => "null"

/-- `json.dumps` on an ordered record, with the default separators. -/
def jsonObj (rec : List (String × Value)) : String :=
  "\x7b" ++ String.intercalate ", " (rec.map (fun p => jsonStr p.1 ++ ": " ++ encValue p.2)) ++ "\x7d"

/-- Line 33 of the source: one serialized line per row, newline-terminated. -/
def serializeLine (snap : String) (cols : List String) (row : List Value) : String :=
  jsonObj (rowRecord snap cols row) ++ "\n"

/-- One row of the source `users` table, in the shape selected by the query of
lines 76-84. -/
structure UserRow where
  id : Value
  created_at : Value
  updated_at : Value
  deleted_at : Value
  name : Value
deriving DecidableEq

/-- One row of the source `projects` table (query of lines 89-97). -/
structure ProjectRow where
  id : Value
  repository_id : Value
  created_at : Value
  updated_at : Value
  deleted_at : Value
  name : Value
deriving DecidableEq

/-- One row of the source `activities` table (query of lines 103-112); its
`created_at` is a timestamp so that `DATE(created_at)` is meaningful. -/
structure ActivityRow where
  id : Value
  event : Value
  created_at : Timestamp
  updated_at : Value
  project_id : Value
  user_id : Value
deriving DecidableEq

/-- Cursor description of the users query, in SELECT order. -/
def usersCols : List String := ["id", "created_at", "updated_at", "deleted_at", "name"]

/-- Cursor description of the projects query, in SELECT order. -/
def projectsCols : List String :=
  ["id", "repository_id", "created_at", "updated_at", "deleted_at", "name"]

/-- Cursor description of the activities query, in SELECT order. -/
def activitiesCols : List String :=
  ["id", "event", "created_at", "updated_at", "project_id", "user_id"]

/-- Projection of a users row onto the selected column list. -/
def userToRow (u : UserRow) : List Value :=
  [u.id, u.created_at, u.updated_at, u.deleted_at, u.name]

/-- Projection of a projects row onto the selected column list. -/
def projectToRow (p : ProjectRow) : List Value :=
  [p.id, p.repository_id, p.created_at, p.updated_at, p.deleted_at, p.name]

/-- Projection of an activities row onto the selected column list. -/
def activityToRow (a : ActivityRow) : List Value :=
  [a.id, a.event, Value.vts a.created_at, a.updated_at, a.project_id, a.user_id]

/-- Result set of the full-table users query. -/
def usersQueryRows (t : List UserRow) : List (List Value) := t.map userToRow

/-- Result set of the full-table projects query. -/
def projectsQueryRows (t : List ProjectRow) : List (List Value) := t.map projectToRow

/-- Result set of the activities query: `WHERE DATE(created_at) = %s` with the
snapshot date as the bound parameter (lines 112-114). -/
def activitiesQueryRows (t : List ActivityRow) (d : Date) : List (List Value) :=
  (t.filter (fun a => decide (a.created_at.date = d))).map activityToRow

/-- Errors a run can terminate with; each carries the dataset whose dump
raised it.  They mirror the spec's taxonomy for the three fallible effects of
`dump`: the cursor iteration, the blob upload, and the warehouse COPY. -/
inductive Err where
  | extraction : String → Err
  | uploadErr : String → Err
  | loadErr : String → Err
deriving DecidableEq

/-- Externally visible effects of a run, tagged with the dataset of the dump
that performs them.  `replicaExec` carries the replica-side transaction id it
executes under; `upload` records a blob that became visible at a path with the
records it holds; `copyCmd` is one warehouse COPY naming its target table and
source URI. -/
inductive Event where
  | tempCreate : String → Event
  | replicaTxBegin : Nat → Event
  | replicaExec : Nat → String → Event
  | tempWrite : String → List (String × Value) → Event
  | tempClose : String → Event
  | upload : String → String → String → List (List (String × Value)) → Event
  | tempRemove : String → Event
  | copyCmd : String → String → Event
  | replicaTxEnd : Nat → Event
  | redshiftCommit : Event
deriving DecidableEq

/-- Fault injection for one dump: the extraction may raise after yielding a
given number of rows, the upload may fail, and the COPY may fail. -/
structure Faults where
  extractFailAfter : Option Nat
  uploadFail : Bool
  copyFail : Bool
deriving DecidableEq

/-- Whether any of the three faults is armed. -/
def hasFault (f : Faults) : Bool :=
  f.extractFailAfter.isSome || f.uploadFail || f.copyFail

/-- One resolved dump invocation: dataset tag, destination path (`to_file`),
warehouse target (`copy_to`), cursor columns and result rows. -/
structure SpecRun where
  ds : String
  toFile : String
  copyTo : String
  cols : List String
  rows : List (List Value)
deriving DecidableEq

/-- Result of one dump: its effect trace, the clock position after it (one
clock read per emitted row), and its error, if any. -/
structure DumpOut where
  trace : List Event
  pos : Nat
  err : Option Err

/-- Events every dump run starts with: the temp file creation (line 24), the
implicit BEGIN the driver issues for the first statement of the replica
transaction (only for the first dump of a run), and the cursor execute
(line 26). -/
def dumpBase (b : Bool) (ds : String) : List Event :=
  Event.tempCreate ds :: (if b then [Event.replicaTxBegin 0] else []) ++ [Event.replicaExec 0 ds]

/-- Records written by the row loop of `dump` (lines 28-34): row `i` reads the
clock (`datetime.today() - timedelta(days=1)`) at position `pos + i` and is
stamped with that date. -/
def writeRows (clock : Nat → Date) : Nat → List String → List (List Value) → List (List (String × Value))
  | _, _, [] => []
  | pos, cols, r :: rs => rowRecord (dateStr (clock pos)) cols r :: writeRows clock (pos + 1) cols rs

/-- Rows the cursor loop actually yields: all of them, or only the first `n`
when the extraction raises after `n` rows. -/
def yieldedOf (f : Faults) (rows : List (List Value)) : List (List Value) :=
  match f.extractFailAfter with
  | some n => rows.take n
  | none => rows

/-- Events after the row loop of `dump`.  On an extraction fault nothing more
happens: lines 36-38 and 41-52 are all skipped, so the temp file is neither
closed, uploaded nor removed.  Otherwise the file is closed (line 36); a
failing upload skips both the blob write and the removal (line 38); only
after a successful upload is the file removed and the COPY issued
(lines 41-52), a failing COPY leaving no load behind. -/
def dumpTail (bucket : String) (spec : SpecRun) (f : Faults)
    (recs : List (List (String × Value))) : List Event :=
  match f.extractFailAfter with
  | some _ => []
  | none =>
    Event.tempClose spec.ds ::
      (if f.uploadFail then []
       else [Event.upload spec.ds bucket spec.toFile recs, Event.tempRemove spec.ds] ++
         (if f.copyFail then []
          else [Event.copyCmd spec.copyTo ("s3://" ++ bucket ++ "/" ++ spec.toFile)]))

/-- The error a dump terminates with, by fault priority: the extraction
raises first, then the upload, then the COPY. -/
def dumpErr (ds : String) (f : Faults) : Option Err :=
  match f.extractFailAfter with
  | some _ => some (Err.extraction ds)
  | none =>
    if f.uploadFail then some (Err.uploadErr ds)
    else if f.copyFail then some (Err.loadErr ds) else none

/-- The `dump` function (lines 16-53) as a trace transformer: the base events
(temp creation and cursor execute), one `tempWrite` per yielded row, then the
close/upload/remove/COPY tail as far as the faults allow. -/
def dumpRun (clock : Nat → Date) (pos : Nat) (b : Bool) (bucket : String)
    (spec : SpecRun) (f : Faults) : DumpOut :=
  ⟨dumpBase b spec.ds ++
     (writeRows clock pos spec.cols (yieldedOf f spec.rows)).map (Event.tempWrite spec.ds) ++
     dumpTail bucket spec f (writeRows clock pos spec.cols (yieldedOf f spec.rows)),
   pos + (yieldedOf f spec.rows).length,
   dumpErr spec.ds f⟩

/-- The whole external world a run reads: the clock stream (reading `k` is the
value of `datetime.today() - timedelta(days=1)` at the `k`-th call), the three
source tables, the destination bucket, and the fault injection per dump. -/
structure World where
  clock : Nat → Date
  users : List UserRow
  projects : List ProjectRow
  activities : List ActivityRow
  bucket : String
  faults0 : Faults
  faults1 : Faults
  faults2 : Faults

/-- The users dump specification built in `main` (lines 75-86). -/
def usersSpec (d : Date) (w : World) : SpecRun :=
  ⟨"users", pathFor d "users" "data", "users", usersCols, usersQueryRows w.users⟩

/-- The projects dump specification (lines 88-98). -/
def projectsSpec (d : Date) (w : World) : SpecRun :=
  ⟨"projects", pathFor d "projects" "data", "projects", projectsCols,
   projectsQueryRows w.projects⟩

/-- The incremental activities dump specification (lines 101-114), filtered on
`DATE(created_at) = day.date()`. -/
def activitiesSpec (d : Date) (w : World) : SpecRun :=
  ⟨"activities", pathFor d "activities" "incremental", "activities", activitiesCols,
   activitiesQueryRows w.activities d⟩

/-- First dump of the run; `main` reads the clock once at position 0 for the
partition date (line 66), so the first row stamp reads position 1. -/
def seg0 (w : World) : DumpOut :=
  dumpRun w.clock 1 true w.bucket (usersSpec (w.clock 0) w) w.faults0

/-- Second dump of the run. -/
def seg1 (w : World) : DumpOut :=
  dumpRun w.clock (seg0 w).pos false w.bucket (projectsSpec (w.clock 0) w) w.faults1

/-- Third dump of the run. -/
def seg2 (w : World) : DumpOut :=
  dumpRun w.clock (seg1 w).pos false w.bucket (activitiesSpec (w.clock 0) w) w.faults2

/-- The `main` function (lines 56-121) as a trace: the three dumps run in
order inside the replica `with` block; an exception from any dump skips the
remaining dumps, ends the replica transaction (the context manager exit) and
propagates, so `redshift.commit()` (line 117) runs only when all three
succeeded. -/
def mainRun (w : World) : List Event × Option Err :=
  match (seg0 w).err with
  | some e => ((seg0 w).trace ++ [Event.replicaTxEnd 0], some e)
  | none =>
    match (seg1 w).err with
    | some e => ((seg0 w).trace ++ (seg1 w).trace ++ [Event.replicaTxEnd 0], some e)
    | none =>
      match (seg2 w).err with
      | some e =>
        ((seg0 w).trace ++ (seg1 w).trace ++ (seg2 w).trace ++ [Event.replicaTxEnd 0], some e)
      | none =>
        ((seg0 w).trace ++ (seg1 w).trace ++ (seg2 w).trace ++
           [Event.replicaTxEnd 0, Event.redshiftCommit], none)

/-- Warehouse transaction semantics: COPY statements accumulate as pending
loads; a commit makes all pending loads visible at once. -/
def rsStep (st : List String × List String) (e : Event) : List String × List String :=
  match e with
  | Event.copyCmd t _ => (st.1 ++ [t], st.2)
  | Event.redshiftCommit => ([], st.2 ++ st.1)
  | _ => (st.1, st.2)

/-- Tables whose loaded rows are visible in the warehouse after a trace. -/
def visibleTables (tr : List Event) : List String :=
  (tr.foldl rsStep ([], [])).2

/-- The snapshot-date field of a record. -/
def recSnap (rec : List (String × Value)) : Option Value :=
  rec.lookup "snapshot_date"

/-- The snapshot-date stamp of one event, when it writes a record. -/
def recEventSnap : Event → Option Value
  | Event.tempWrite _ rec => recSnap rec
  | _ => none

/-- All snapshot-date stamps of records produced along a trace. -/
def snapshotsOf (tr : List Event) : List Value :=
  tr.filterMap recEventSnap

/-- The datasets of the cursor-execute events of a trace, in order. -/
def execDS (tr : List Event) : List String :=
  tr.filterMap (fun e => match e with | Event.replicaExec _ d' => some d' | _ => none)

theorem dictInsert_fresh (d : List (String × Value)) (k : String) (v : Value)
    (h : k ∉ d.map Prod.fst) : dictInsert d k v = d ++ [(k, v)] := by
  induction d with
  | nil => rfl
  | cons p rest ih =>
    simp only [List.map_cons, List.mem_cons, not_or] at h
    have hne : ¬ p.1 = k := fun hh => h.1 (Eq.symm hh)
    simp [dictInsert, hne, ih h.2]

theorem dictInsert_head (k : String) (a v : Value) (rest : List (String × Value)) :
    dictInsert ((k, a) :: rest) k v = (k, v) :: rest := by
  simp [dictInsert]

theorem dictInsert_ne_head (k k' : String) (a v : Value) (rest : List (String × Value))
    (h : k ≠ k') : dictInsert ((k, a) :: rest) k' v = (k, a) :: dictInsert rest k' v := by
  simp [dictInsert, h]

theorem updAll_cons (d : List (String × Value)) (p : String × Value)
    (ps : List (String × Value)) :
    updAll d (p :: ps) = updAll (dictInsert d p.1 p.2) ps := rfl

theorem updAll_fresh (ps : List (String × Value)) (d : List (String × Value))
    (hn : (ps.map Prod.fst).Nodup)
    (hd : ∀ x ∈ ps.map Prod.fst, x ∉ d.map Prod.fst) :
    updAll d ps = d ++ ps := by
  induction ps generalizing d with
  | nil => simp [updAll]
  | cons p ps ih =>
    simp only [List.map_cons, List.nodup_cons] at hn
    rw [updAll_cons, dictInsert_fresh d p.1 p.2 (hd p.1 (by simp))]
    rw [ih (d ++ [(p.1, p.2)]) hn.2]
    · simp
    · intro x hx
      simp only [List.map_append, List.mem_append, List.map_cons, List.map_nil,
        List.mem_singleton, not_or]
      exact ⟨hd x (by simp [hx]), fun hxp => hn.1 (hxp ▸ hx)⟩

theorem updAll_head_untouched (k : String) (a : Value) (ps d : List (String × Value))
    (h : ∀ p ∈ ps, p.1 ≠ k) :
    updAll ((k, a) :: d) ps = (k, a) :: updAll d ps := by
  induction ps generalizing d with
  | nil => rfl
  | cons p ps ih =>
    rw [updAll_cons, dictInsert_ne_head k p.1 a p.2 d (fun hk => h p (by simp) (hk ▸ rfl)),
      updAll_cons]
    exact ih _ (fun q hq => h q (by simp [hq]))

theorem zip_fst_sublist : ∀ (cols : List String) (row : List Value),
    ((cols.zip row).map Prod.fst).Sublist cols
  | [], _ => by simp
  | _ :: _, [] => by simp
  | c :: cols, v :: row => by
    simpa using List.Sublist.cons₂ c (zip_fst_sublist cols row)

theorem rowRecord_eq (snap : String) (cols : List String) (row : List Value)
    (hn : cols.Nodup) (hs : "snapshot_date" ∉ cols) :
    rowRecord snap cols row = ("snapshot_date", Value.vstr snap) :: cols.zip row := by
  have hsub := zip_fst_sublist cols row
  have : updAll [("snapshot_date", Value.vstr snap)] (cols.zip row) =
      [("snapshot_date", Value.vstr snap)] ++ cols.zip row := by
    apply updAll_fresh _ _ (hn.sublist hsub)
    intro x hx
    simp only [List.map_cons, List.map_nil, List.mem_singleton]
    intro hxe
    exact hs (hxe ▸ hsub.subset hx)
  simpa [rowRecord] using this

theorem recSnap_rowRecord (snap : String) (cols : List String) (row : List Value)
    (hs : "snapshot_date" ∉ cols) :
    recSnap (rowRecord snap cols row) = some (Value.vstr snap) := by
  have hhead : updAll [("snapshot_date", Value.vstr snap)] (cols.zip row) =
      ("snapshot_date", Value.vstr snap) :: updAll [] (cols.zip row) := by
    apply updAll_head_untouched
    intro p hp hk
    exact hs (hk ▸ ((List.of_mem_zip hp).1))
  simp [recSnap, rowRecord, hhead, List.lookup]

/-- Claim C6: for every extracted row, the serializer emits one
newline-terminated JSON record whose first key is `snapshot_date` holding the
`YYYY-MM-DD` rendering of the snapshot date, followed by each cursor-reported
column mapped to its value in cursor order — provided the cursor-reported
column names are pairwise distinct and none of them is `snapshot_date`
(a source column named `snapshot_date` overwrites the stamp instead, see the
counterexample). -/
theorem c6_serializer_shape (d : Date) (cols : List String) (row : List Value)
    (hn : cols.Nodup) (hs : "snapshot_date" ∉ cols) :
    rowRecord (dateStr d) cols row =
      ("snapshot_date", Value.vstr (dateStr d)) :: cols.zip row ∧
    serializeLine (dateStr d) cols row =
      jsonObj (("snapshot_date", Value.vstr (dateStr d)) :: cols.zip row) ++ "\n" := by
  have h := rowRecord_eq (dateStr d) cols row hn hs
  exact ⟨h, by rw [serializeLine, h]⟩

/-- Claim C6, counterexample: when the cursor reports a column named
`snapshot_date`, the record is not the injected stamp followed by the source
columns — the source value overwrites the stamp in place. -/
theorem c6_counterexample :
    ¬ (rowRecord "2023-03-05" ["snapshot_date"] [Value.vint 7] =
        ("snapshot_date", Value.vstr "2023-03-05") ::
          (["snapshot_date"].zip [Value.vint 7])) := by
  decide

/-- Claim C6, witness at a concrete cursor shape. -/
theorem c6_witness :
    (["id", "name"] : List String).Nodup ∧ "snapshot_date" ∉ (["id", "name"] : List String) ∧
    rowRecord (dateStr ⟨2023, 3, 5⟩) ["id", "name"] [Value.vint 1, Value.vstr "a"] =
      ("snapshot_date", Value.vstr (dateStr ⟨2023, 3, 5⟩)) ::
        (["id", "name"].zip [Value.vint 1, Value.vstr "a"]) := by
  refine ⟨by decide, by decide, ?_⟩
  exact (c6_serializer_shape ⟨2023, 3, 5⟩ ["id", "name"] [Value.vint 1, Value.vstr "a"]
    (by decide) (by decide)).1

/-- Claim C9: if the cursor reports a column named `snapshot_date`, the
emitted record has a single `snapshot_date` key holding that source column's
value (the injected stamp is overwritten in place), and the record consists of
exactly the source columns — not the source columns plus one extra field. -/
theorem c9_snapshot_collision (snap : String) (front suf : List String)
    (row1 row2 : List Value) (v : Value)
    (hn : (front ++ "snapshot_date" :: suf).Nodup)
    (h1 : front.length = row1.length) (h2 : suf.length = row2.length) :
    rowRecord snap (front ++ "snapshot_date" :: suf) (row1 ++ v :: row2) =
      ("snapshot_date", v) :: (front.zip row1 ++ suf.zip row2) ∧
    ((rowRecord snap (front ++ "snapshot_date" :: suf) (row1 ++ v :: row2)).map Prod.fst).Perm
      (front ++ "snapshot_date" :: suf) ∧
    (rowRecord snap (front ++ "snapshot_date" :: suf) (row1 ++ v :: row2)).length =
      (front ++ "snapshot_date" :: suf).length ∧
    (rowRecord snap (front ++ "snapshot_date" :: suf) (row1 ++ v :: row2)).lookup
      "snapshot_date" = some v := by
  have hzip : (front ++ "snapshot_date" :: suf).zip (row1 ++ v :: row2) =
      front.zip row1 ++ ("snapshot_date", v) :: suf.zip row2 := by
    rw [List.zip_append h1, List.zip_cons_cons]
  rw [List.nodup_append] at hn
  obtain ⟨hnf, hncons, hdisj⟩ := hn
  rw [List.nodup_cons] at hncons
  have hsdf : "snapshot_date" ∉ front := fun hmem => hdisj hmem (by simp)
  have hfz := zip_fst_sublist front row1
  have hsz := zip_fst_sublist suf row2
  have heq : rowRecord snap (front ++ "snapshot_date" :: suf) (row1 ++ v :: row2) =
      ("snapshot_date", v) :: (front.zip row1 ++ suf.zip row2) := by
    rw [rowRecord, hzip, updAll, List.foldl_append, ← updAll, ← updAll]
    have hfront : updAll [("snapshot_date", Value.vstr snap)] (front.zip row1) =
        ("snapshot_date", Value.vstr snap) :: front.zip row1 := by
      apply updAll_fresh _ _ (hnf.sublist hfz)
      intro x hx
      simp only [List.map_cons, List.map_nil, List.mem_singleton]
      intro hxe
      exact hsdf (hxe ▸ hfz.subset hx)
    rw [hfront, updAll_cons]
    simp only [dictInsert_head]
    rw [updAll_head_untouched]
    · rw [updAll_fresh _ _ (hncons.2.sublist hsz)]
      intro x hx hx2
      have hxs : x ∈ suf := hsz.subset hx
      have hxf : x ∈ front := by
        have := hfz.subset
        exact this hx2
      exact hdisj hxf (by simp [hxs])
    · intro p hp hpk
      exact hncons.1 (hpk ▸ (List.of_mem_zip hp).1)
  refine ⟨heq, ?_, ?_, ?_⟩
  · rw [heq]
    simp only [List.map_cons, List.map_append]
    rw [List.map_fst_zip front row1 (le_of_eq h1), List.map_fst_zip suf row2 (le_of_eq h2)]
    exact List.perm_middle.symm
  · rw [heq]
    simp [List.length_zip, h1, h2, Nat.min_self]
    omega
  · rw [heq]
    simp [List.lookup]

/-- Claim C9, witness: a two-column cursor whose second column is
`snapshot_date`; the source value `vint 9` overwrites the injected stamp. -/
theorem c9_witness :
    ((["id"] ++ "snapshot_date" :: []).Nodup) ∧
    rowRecord "2023-03-05" (["id"] ++ "snapshot_date" :: []) ([Value.vint 1] ++ Value.vint 9 :: []) =
      ("snapshot_date", Value.vint 9) :: (["id"].zip [Value.vint 1] ++ List.zip [] []) := by
  refine ⟨by decide, ?_⟩
  exact (c9_snapshot_collision "2023-03-05" ["id"] [] [Value.vint 1] [] (Value.vint 9)
    (by decide) (by decide) (by decide)).1

/-- Claim C7: the partition path builder is deterministic, the month and day
components are always zero-padded to two digits, and for date 2023-03-05 and
dataset `users` the path is exactly
`users/snapshot_year=2023/snapshot_month=03/snapshot_day=05/data`. -/
theorem c7_partition_path :
    pathFor ⟨2023, 3, 5⟩ "users" "data" =
      "users/snapshot_year=2023/snapshot_month=03/snapshot_day=05/data" ∧
    (∀ (d1 d2 : Date) (ds leaf : String), d1 = d2 → pathFor d1 ds leaf = pathFor d2 ds leaf) ∧
    (∀ n, n < 100 → (pad2 n).length = 2) := by
  refine ⟨by decide, fun d1 d2 ds leaf h => by rw [h], ?_⟩
  decide

/-- Claim C7, witness instantiating the quantified parts. -/
theorem c7_witness :
    pathFor ⟨2023, 3, 5⟩ "projects" "data" = pathFor ⟨2023, 3, 5⟩ "projects" "data" ∧
    (pad2 7).length = 2 :=
  ⟨c7_partition_path.2.1 ⟨2023, 3, 5⟩ ⟨2023, 3, 5⟩ "projects" "data" rfl,
   c7_partition_path.2.2 7 (by decide)⟩

theorem dump_err_eq (c : Nat → Date) (p : Nat) (b : Bool) (k : String) (s : SpecRun)
    (f : Faults) : (dumpRun c p b k s f).err = dumpErr s.ds f := rfl

theorem dumpErr_none_iff (ds : String) (f : Faults) :
    dumpErr ds f = none ↔ hasFault f = false := by
  rcases f with ⟨ef, uf, cf⟩
  rcases ef with _ | n <;> cases uf <;> cases cf <;> simp [dumpErr, hasFault]

theorem dumpBase_mem (b : Bool) (ds : String) (e : Event) (h : e ∈ dumpBase b ds) :
    e = Event.tempCreate ds ∨ (e = Event.replicaTxBegin 0 ∧ b = true) ∨
      e = Event.replicaExec 0 ds := by
  cases b <;> simp [dumpBase] at h <;> tauto

theorem dumpTail_mem (k : String) (s : SpecRun) (f : Faults)
    (recs : List (List (String × Value))) (e : Event) (h : e ∈ dumpTail k s f recs) :
    (e = Event.tempClose s.ds ∧ f.extractFailAfter = none) ∨
    (e = Event.upload s.ds k s.toFile recs ∧ f.extractFailAfter = none ∧
      f.uploadFail = false) ∨
    (e = Event.tempRemove s.ds ∧ f.extractFailAfter = none ∧ f.uploadFail = false) ∨
    (e = Event.copyCmd s.copyTo ("s3://" ++ k ++ "/" ++ s.toFile) ∧ hasFault f = false) := by
  rcases f with ⟨ef, uf, cf⟩
  rcases ef with _ | n <;> cases uf <;> cases cf <;>
    simp [dumpTail, hasFault] at h ⊢ <;> tauto

theorem dump_trace_eq (c : Nat → Date) (p : Nat) (b : Bool) (k : String) (s : SpecRun)
    (f : Faults) : (dumpRun c p b k s f).trace =
      dumpBase b s.ds ++
        (writeRows c p s.cols (yieldedOf f s.rows)).map (Event.tempWrite s.ds) ++
        dumpTail k s f (writeRows c p s.cols (yieldedOf f s.rows)) := rfl

theorem dump_mem (c : Nat → Date) (p : Nat) (b : Bool) (k : String) (s : SpecRun)
    (f : Faults) (e : Event) (h : e ∈ (dumpRun c p b k s f).trace) :
    e ∈ dumpBase b s.ds ∨
    (∃ rec, e = Event.tempWrite s.ds rec ∧
      rec ∈ writeRows c p s.cols (yieldedOf f s.rows)) ∨
    e ∈ dumpTail k s f (writeRows c p s.cols (yieldedOf f s.rows)) := by
  rw [dump_trace_eq] at h
  rcases List.mem_append.mp h with h1 | h2
  · rcases List.mem_append.mp h1 with h1a | h1b
    · exact Or.inl h1a
    · obtain ⟨rec, hrec, he⟩ := List.mem_map.mp h1b
      exact Or.inr (Or.inl ⟨rec, he.symm, hrec⟩)
  · exact Or.inr (Or.inr h2)

theorem dump_no_commit (c : Nat → Date) (p : Nat) (b : Bool) (k : String) (s : SpecRun)
    (f : Faults) : Event.redshiftCommit ∉ (dumpRun c p b k s f).trace := by
  intro h
  rcases dump_mem c p b k s f _ h with h1 | ⟨rec, he, _⟩ | h3
  · rcases dumpBase_mem b s.ds _ h1 with h | ⟨h, _⟩ | h <;> exact absurd h (by simp)
  · exact absurd he (by simp)
  · rcases dumpTail_mem k s f _ _ h3 with ⟨h, _⟩ | ⟨h, _⟩ | ⟨h, _⟩ | ⟨h, _⟩ <;>
      exact absurd h (by simp)

theorem dump_no_txEnd (c : Nat → Date) (p : Nat) (b : Bool) (k : String) (s : SpecRun)
    (f : Faults) (t : Nat) : Event.replicaTxEnd t ∉ (dumpRun c p b k s f).trace := by
  intro h
  rcases dump_mem c p b k s f _ h with h1 | ⟨rec, he, _⟩ | h3
  · rcases dumpBase_mem b s.ds _ h1 with h | ⟨h, _⟩ | h <;> exact absurd h (by simp)
  · exact absurd he (by simp)
  · rcases dumpTail_mem k s f _ _ h3 with ⟨h, _⟩ | ⟨h, _⟩ | ⟨h, _⟩ | ⟨h, _⟩ <;>
      exact absurd h (by simp)

theorem dump_exec (c : Nat → Date) (p : Nat) (b : Bool) (k : String) (s : SpecRun)
    (f : Faults) (t : Nat) (d' : String)
    (h : Event.replicaExec t d' ∈ (dumpRun c p b k s f).trace) : t = 0 ∧ d' = s.ds := by
  rcases dump_mem c p b k s f _ h with h1 | ⟨rec, he, _⟩ | h3
  · rcases dumpBase_mem b s.ds _ h1 with h | ⟨h, _⟩ | h
    · exact absurd h (by simp)
    · exact absurd h (by simp)
    · obtain ⟨h1, h2⟩ : t = 0 ∧ d' = s.ds := by
        constructor <;> cases h <;> rfl
      exact ⟨h1, h2⟩
  · exact absurd he (by simp)
  · rcases dumpTail_mem k s f _ _ h3 with ⟨h, _⟩ | ⟨h, _⟩ | ⟨h, _⟩ | ⟨h, _⟩ <;>
      exact absurd h (by simp)

theorem dump_txBegin (c : Nat → Date) (p : Nat) (b : Bool) (k : String) (s : SpecRun)
    (f : Faults) (t : Nat)
    (h : Event.replicaTxBegin t ∈ (dumpRun c p b k s f).trace) : b = true ∧ t = 0 := by
  rcases dump_mem c p b k s f _ h with h1 | ⟨rec, he, _⟩ | h3
  · rcases dumpBase_mem b s.ds _ h1 with h | ⟨h, hb⟩ | h
    · exact absurd h (by simp)
    · refine ⟨hb, ?_⟩
      cases h; rfl
    · exact absurd h (by simp)
  · exact absurd he (by simp)
  · rcases dumpTail_mem k s f _ _ h3 with ⟨h, _⟩ | ⟨h, _⟩ | ⟨h, _⟩ | ⟨h, _⟩ <;>
      exact absurd h (by simp)

theorem dump_upload (c : Nat → Date) (p : Nat) (b : Bool) (k : String) (s : SpecRun)
    (f : Faults) (d' b' p' : String) (rs : List (List (String × Value)))
    (h : Event.upload d' b' p' rs ∈ (dumpRun c p b k s f).trace) :
    d' = s.ds ∧ b' = k ∧ p' = s.toFile ∧ f.extractFailAfter = none ∧
      f.uploadFail = false ∧ rs = writeRows c p s.cols s.rows := by
  rcases dump_mem c p b k s f _ h with h1 | ⟨rec, he, _⟩ | h3
  · rcases dumpBase_mem b s.ds _ h1 with h | ⟨h, _⟩ | h <;> exact absurd h (by simp)
  · exact absurd he (by simp)
  · rcases dumpTail_mem k s f _ _ h3 with ⟨h, _⟩ | ⟨h, hf⟩ | ⟨h, _⟩ | ⟨h, _⟩
    · exact absurd h (by simp)
    · obtain ⟨e1, e2, e3, e4⟩ :
          d' = s.ds ∧ b' = k ∧ p' = s.toFile ∧
            rs = writeRows c p s.cols (yieldedOf f s.rows) := by
        refine ⟨?_, ?_, ?_, ?_⟩ <;> cases h <;> rfl
      refine ⟨e1, e2, e3, hf.1, hf.2, ?_⟩
      rw [e4, yieldedOf, hf.1]
    · exact absurd h (by simp)
    · exact absurd h (by simp)

theorem dump_copy (c : Nat → Date) (p : Nat) (b : Bool) (k : String) (s : SpecRun)
    (f : Faults) (t' u : String)
    (h : Event.copyCmd t' u ∈ (dumpRun c p b k s f).trace) :
    t' = s.copyTo ∧ hasFault f = false ∧ u = "s3://" ++ k ++ "/" ++ s.toFile := by
  rcases dump_mem c p b k s f _ h with h1 | ⟨rec, he, _⟩ | h3
  · rcases dumpBase_mem b s.ds _ h1 with h | ⟨h, _⟩ | h <;> exact absurd h (by simp)
  · exact absurd he (by simp)
  · rcases dumpTail_mem k s f _ _ h3 with ⟨h, _⟩ | ⟨h, _⟩ | ⟨h, _⟩ | ⟨h, hf⟩
    · exact absurd h (by simp)
    · exact absurd h (by simp)
    · exact absurd h (by simp)
    · obtain ⟨e1, e2⟩ : t' = s.copyTo ∧ u = "s3://" ++ k ++ "/" ++ s.toFile := by
        constructor <;> cases h <;> rfl
      exact ⟨e1, hf, e2⟩

theorem dump_tempCreate (c : Nat → Date) (p : Nat) (b : Bool) (k : String) (s : SpecRun)
    (f : Faults) : Event.tempCreate s.ds ∈ (dumpRun c p b k s f).trace := by
  rw [dump_trace_eq]
  cases b <;> simp [dumpBase]

theorem dump_tempRemove_iff (c : Nat → Date) (p : Nat) (b : Bool) (k : String) (s : SpecRun)
    (f : Faults) : Event.tempRemove s.ds ∈ (dumpRun c p b k s f).trace ↔
      (f.extractFailAfter = none ∧ f.uploadFail = false) := by
  constructor
  · intro h
    rcases dump_mem c p b k s f _ h with h1 | ⟨rec, he, _⟩ | h3
    · rcases dumpBase_mem b s.ds _ h1 with h | ⟨h, _⟩ | h <;> exact absurd h (by simp)
    · exact absurd he (by simp)
    · rcases dumpTail_mem k s f _ _ h3 with ⟨h, _⟩ | ⟨h, _⟩ | ⟨h, hf⟩ | ⟨h, _⟩
      · exact absurd h (by simp)
      · exact absurd h (by simp)
      · exact hf
      · exact absurd h (by simp)
  · intro hf
    rw [dump_trace_eq]
    rcases f with ⟨ef, uf, cf⟩
    obtain ⟨he, hu⟩ := hf
    cases he
    cases hu
    cases cf <;> simp [dumpTail]

theorem writeRows_mem (clock : Nat → Date) :
    ∀ (pos : Nat) (cols : List String) (rows : List (List Value))
      (rec : List (String × Value)), rec ∈ writeRows clock pos cols rows →
      ∃ q r, r ∈ rows ∧ rec = rowRecord (dateStr (clock q)) cols r := by
  intro pos cols rows
  induction rows generalizing pos with
  | nil => intro rec h; simp [writeRows] at h
  | cons r rs ih =>
    intro rec h
    rw [writeRows] at h
    rcases List.mem_cons.mp h with h1 | h2
    · exact ⟨pos, r, by simp, h1⟩
    · obtain ⟨q, r', hr', he⟩ := ih (pos + 1) rec h2
      exact ⟨q, r', by simp [hr'], he⟩

theorem writeRows_length (clock : Nat → Date) :
    ∀ (pos : Nat) (cols : List String) (rows : List (List Value)),
      (writeRows clock pos cols rows).length = rows.length := by
  intro pos cols rows
  induction rows generalizing pos with
  | nil => rfl
  | cons r rs ih => rw [writeRows]; simp [ih]

theorem yieldedOf_subset (f : Faults) (rows : List (List Value)) :
    yieldedOf f rows ⊆ rows := by
  rcases f with ⟨ef, uf, cf⟩
  rcases ef with _ | n
  · exact fun a ha => ha
  · exact List.take_subset n rows

theorem dump_write (c : Nat → Date) (p : Nat) (b : Bool) (k : String) (s : SpecRun)
    (f : Faults) (d' : String) (rec : List (String × Value))
    (h : Event.tempWrite d' rec ∈ (dumpRun c p b k s f).trace) :
    d' = s.ds ∧ ∃ q r, r ∈ s.rows ∧ rec = rowRecord (dateStr (c q)) s.cols r := by
  rcases dump_mem c p b k s f _ h with h1 | ⟨rec', he, hrec'⟩ | h3
  · rcases dumpBase_mem b s.ds _ h1 with h | ⟨h, _⟩ | h <;> exact absurd h (by simp)
  · obtain ⟨hds, hrec⟩ : d' = s.ds ∧ rec = rec' := by
      constructor <;> cases he <;> rfl
    obtain ⟨q, r, hr, heq⟩ := writeRows_mem c p s.cols _ rec' hrec'
    exact ⟨hds, q, r, yieldedOf_subset f s.rows hr, hrec ▸ heq⟩
  · rcases dumpTail_mem k s f _ _ h3 with ⟨h, _⟩ | ⟨h, _⟩ | ⟨h, _⟩ | ⟨h, _⟩ <;>
      exact absurd h (by simp)

theorem dumpTail_no_txBegin (k : String) (s : SpecRun) (f : Faults)
    (recs : List (List (String × Value))) (t : Nat) :
    Event.replicaTxBegin t ∉ dumpTail k s f recs := by
  intro h
  rcases dumpTail_mem k s f _ _ h with ⟨h, _⟩ | ⟨h, _⟩ | ⟨h, _⟩ | ⟨h, _⟩ <;>
    exact absurd h (by simp)

theorem dumpTail_no_exec (k : String) (s : SpecRun) (f : Faults)
    (recs : List (List (String × Value))) (t : Nat) (d' : String) :
    Event.replicaExec t d' ∉ dumpTail k s f recs := by
  intro h
  rcases dumpTail_mem k s f _ _ h with ⟨h, _⟩ | ⟨h, _⟩ | ⟨h, _⟩ | ⟨h, _⟩ <;>
    exact absurd h (by simp)

theorem hasFault_false_elim (f : Faults) (h : hasFault f = false) :
    f.extractFailAfter = none ∧ f.uploadFail = false ∧ f.copyFail = false := by
  rcases f with ⟨ef, uf, cf⟩
  rcases ef with _ | n <;> cases uf <;> cases cf <;> simp_all [hasFault]

theorem dump_upload_mem_ok (c : Nat → Date) (p : Nat) (b : Bool) (k : String) (s : SpecRun)
    (f : Faults) (h : hasFault f = false) :
    Event.upload s.ds k s.toFile (writeRows c p s.cols s.rows) ∈
      (dumpRun c p b k s f).trace := by
  obtain ⟨he, hu, hc⟩ := hasFault_false_elim f h
  rw [dump_trace_eq, yieldedOf, he]
  simp [dumpTail, he, hu, hc]

theorem dump_copy_mem_ok (c : Nat → Date) (p : Nat) (b : Bool) (k : String) (s : SpecRun)
    (f : Faults) (h : hasFault f = false) :
    Event.copyCmd s.copyTo ("s3://" ++ k ++ "/" ++ s.toFile) ∈
      (dumpRun c p b k s f).trace := by
  obtain ⟨he, hu, hc⟩ := hasFault_false_elim f h
  rw [dump_trace_eq, yieldedOf, he]
  simp [dumpTail, he, hu, hc]

theorem foldl_rsStep_base (b : Bool) (ds : String) (st : List String × List String) :
    (dumpBase b ds).foldl rsStep st = st := by
  cases b <;> rfl

theorem foldl_rsStep_writes (ds : String) (rs : List (List (String × Value))) :
    ∀ st, (rs.map (Event.tempWrite ds)).foldl rsStep st = st := by
  induction rs with
  | nil => intro st; rfl
  | cons r rs ih => intro st; exact ih (rsStep st (Event.tempWrite ds r))

theorem dump_fold_fault (c : Nat → Date) (p : Nat) (b : Bool) (k : String) (s : SpecRun)
    (f : Faults) (h : hasFault f = true) (st : List String × List String) :
    (dumpRun c p b k s f).trace.foldl rsStep st = st := by
  rw [dump_trace_eq, List.foldl_append, List.foldl_append, foldl_rsStep_base,
    foldl_rsStep_writes]
  rcases f with ⟨ef, uf, cf⟩
  rcases ef with _ | n <;> cases uf <;> cases cf <;> simp_all [hasFault, dumpTail] <;> rfl

theorem dump_fold_ok (c : Nat → Date) (p : Nat) (b : Bool) (k : String) (s : SpecRun)
    (f : Faults) (h : hasFault f = false) (st : List String × List String) :
    (dumpRun c p b k s f).trace.foldl rsStep st = (st.1 ++ [s.copyTo], st.2) := by
  obtain ⟨he, hu, hc⟩ := hasFault_false_elim f h
  rw [dump_trace_eq, List.foldl_append, List.foldl_append, foldl_rsStep_base,
    foldl_rsStep_writes]
  simp [dumpTail, he, hu, hc, rsStep]

theorem execDS_append (a b : List Event) : execDS (a ++ b) = execDS a ++ execDS b := by
  simp [execDS]

theorem execDS_base (b : Bool) (ds : String) : execDS (dumpBase b ds) = [ds] := by
  cases b <;> rfl

theorem execDS_writes (ds : String) (rs : List (List (String × Value))) :
    execDS (rs.map (Event.tempWrite ds)) = [] := by
  induction rs with
  | nil => rfl
  | cons r rs ih => simp [execDS] at ih ⊢

theorem execDS_tail (k : String) (s : SpecRun) (f : Faults)
    (recs : List (List (String × Value))) : execDS (dumpTail k s f recs) = [] := by
  rcases f with ⟨ef, uf, cf⟩
  rcases ef with _ | n <;> cases uf <;> cases cf <;> simp [dumpTail, execDS]

theorem execDS_dump (c : Nat → Date) (p : Nat) (b : Bool) (k : String) (s : SpecRun)
    (f : Faults) : execDS (dumpRun c p b k s f).trace = [s.ds] := by
  rw [dump_trace_eq, execDS_append, execDS_append, execDS_base, execDS_writes, execDS_tail]
  rfl

theorem mainRun_eq0 (w : World) (e0 : Err) (h : (seg0 w).err = some e0) :
    mainRun w = ((seg0 w).trace ++ [Event.replicaTxEnd 0], some e0) := by
  unfold mainRun
  rw [h]

theorem mainRun_eq1 (w : World) (e1 : Err) (h0 : (seg0 w).err = none)
    (h : (seg1 w).err = some e1) :
    mainRun w = ((seg0 w).trace ++ (seg1 w).trace ++ [Event.replicaTxEnd 0], some e1) := by
  unfold mainRun
  rw [h0, h]

theorem mainRun_eq2 (w : World) (e2 : Err) (h0 : (seg0 w).err = none)
    (h1 : (seg1 w).err = none) (h : (seg2 w).err = some e2) :
    mainRun w = ((seg0 w).trace ++ (seg1 w).trace ++ (seg2 w).trace ++
      [Event.replicaTxEnd 0], some e2) := by
  unfold mainRun
  rw [h0, h1, h]

theorem mainRun_eq_ok (w : World) (h0 : (seg0 w).err = none)
    (h1 : (seg1 w).err = none) (h2 : (seg2 w).err = none) :
    mainRun w = ((seg0 w).trace ++ (seg1 w).trace ++ (seg2 w).trace ++
      [Event.replicaTxEnd 0, Event.redshiftCommit], none) := by
  unfold mainRun
  rw [h0, h1, h2]

theorem main_mem (w : World) (e : Event) (h : e ∈ (mainRun w).1) :
    e = Event.replicaTxEnd 0 ∨ e = Event.redshiftCommit ∨
    e ∈ (seg0 w).trace ∨ e ∈ (seg1 w).trace ∨ e ∈ (seg2 w).trace := by
  cases h0 : (seg0 w).err with
  | some e0 =>
    rw [mainRun_eq0 w e0 h0] at h
    simp at h
    tauto
  | none =>
    cases h1 : (seg1 w).err with
    | some e1 =>
      rw [mainRun_eq1 w e1 h0 h1] at h
      simp at h
      tauto
    | none =>
      cases h2 : (seg2 w).err with
      | some e2 =>
        rw [mainRun_eq2 w e2 h0 h1 h2] at h
        simp at h
        tauto
      | none =>
        rw [mainRun_eq_ok w h0 h1 h2] at h
        simp at h
        tauto

theorem dumpErr_some_fault (ds : String) (f : Faults) (e : Err)
    (h : dumpErr ds f = some e) : hasFault f = true := by
  cases hf : hasFault f
  · rw [(dumpErr_none_iff ds f).mpr hf] at h
    cases h
  · rfl

theorem seg0_err_fault (w : World) (e : Err) (h : (seg0 w).err = some e) :
    hasFault w.faults0 = true :=
  dumpErr_some_fault _ _ _ ((dump_err_eq _ _ _ _ _ _).symm.trans h)

theorem seg1_err_fault (w : World) (e : Err) (h : (seg1 w).err = some e) :
    hasFault w.faults1 = true :=
  dumpErr_some_fault _ _ _ ((dump_err_eq _ _ _ _ _ _).symm.trans h)

theorem seg2_err_fault (w : World) (e : Err) (h : (seg2 w).err = some e) :
    hasFault w.faults2 = true :=
  dumpErr_some_fault _ _ _ ((dump_err_eq _ _ _ _ _ _).symm.trans h)

theorem seg0_err_ok (w : World) (h : (seg0 w).err = none) :
    hasFault w.faults0 = false :=
  (dumpErr_none_iff _ _).mp ((dump_err_eq _ _ _ _ _ _).symm.trans h)

theorem seg1_err_ok (w : World) (h : (seg1 w).err = none) :
    hasFault w.faults1 = false :=
  (dumpErr_none_iff _ _).mp ((dump_err_eq _ _ _ _ _ _).symm.trans h)

theorem seg2_err_ok (w : World) (h : (seg2 w).err = none) :
    hasFault w.faults2 = false :=
  (dumpErr_none_iff _ _).mp ((dump_err_eq _ _ _ _ _ _).symm.trans h)

theorem seg0_fold_fault (w : World) (h : hasFault w.faults0 = true)
    (st : List String × List String) : (seg0 w).trace.foldl rsStep st = st :=
  dump_fold_fault w.clock 1 true w.bucket (usersSpec (w.clock 0) w) w.faults0 h st

theorem seg1_fold_fault (w : World) (h : hasFault w.faults1 = true)
    (st : List String × List String) : (seg1 w).trace.foldl rsStep st = st :=
  dump_fold_fault w.clock (seg0 w).pos false w.bucket (projectsSpec (w.clock 0) w)
    w.faults1 h st

theorem seg2_fold_fault (w : World) (h : hasFault w.faults2 = true)
    (st : List String × List String) : (seg2 w).trace.foldl rsStep st = st :=
  dump_fold_fault w.clock (seg1 w).pos false w.bucket (activitiesSpec (w.clock 0) w)
    w.faults2 h st

theorem seg0_fold_ok (w : World) (h : hasFault w.faults0 = false)
    (st : List String × List String) :
    (seg0 w).trace.foldl rsStep st = (st.1 ++ ["users"], st.2) :=
  dump_fold_ok w.clock 1 true w.bucket (usersSpec (w.clock 0) w) w.faults0 h st

theorem seg1_fold_ok (w : World) (h : hasFault w.faults1 = false)
    (st : List String × List String) :
    (seg1 w).trace.foldl rsStep st = (st.1 ++ ["projects"], st.2) :=
  dump_fold_ok w.clock (seg0 w).pos false w.bucket (projectsSpec (w.clock 0) w)
    w.faults1 h st

theorem seg2_fold_ok (w : World) (h : hasFault w.faults2 = false)
    (st : List String × List String) :
    (seg2 w).trace.foldl rsStep st = (st.1 ++ ["activities"], st.2) :=
  dump_fold_ok w.clock (seg1 w).pos false w.bucket (activitiesSpec (w.clock 0) w)
    w.faults2 h st

theorem main_visible (w : World) : visibleTables (mainRun w).1 =
    if (mainRun w).2 = none then ["users", "projects", "activities"] else [] := by
  cases h0 : (seg0 w).err with
  | some e0 =>
    rw [mainRun_eq0 w e0 h0, visibleTables, List.foldl_append,
      seg0_fold_fault w (seg0_err_fault w e0 h0)]
    simp [rsStep]
  | none =>
    cases h1 : (seg1 w).err with
    | some e1 =>
      rw [mainRun_eq1 w e1 h0 h1, visibleTables, List.foldl_append, List.foldl_append,
        seg0_fold_ok w (seg0_err_ok w h0), seg1_fold_fault w (seg1_err_fault w e1 h1)]
      simp [rsStep]
    | none =>
      cases h2 : (seg2 w).err with
      | some e2 =>
        rw [mainRun_eq2 w e2 h0 h1 h2, visibleTables, List.foldl_append, List.foldl_append,
          List.foldl_append, seg0_fold_ok w (seg0_err_ok w h0),
          seg1_fold_ok w (seg1_err_ok w h1), seg2_fold_fault w (seg2_err_fault w e2 h2)]
        simp [rsStep]
      | none =>
        rw [mainRun_eq_ok w h0 h1 h2, visibleTables, List.foldl_append, List.foldl_append,
          List.foldl_append, seg0_fold_ok w (seg0_err_ok w h0),
          seg1_fold_ok w (seg1_err_ok w h1), seg2_fold_ok w (seg2_err_ok w h2)]
        simp [rsStep]

theorem seg0_no_commit (w : World) : Event.redshiftCommit ∉ (seg0 w).trace :=
  dump_no_commit w.clock 1 true w.bucket (usersSpec (w.clock 0) w) w.faults0

theorem seg1_no_commit (w : World) : Event.redshiftCommit ∉ (seg1 w).trace :=
  dump_no_commit w.clock (seg0 w).pos false w.bucket (projectsSpec (w.clock 0) w) w.faults1

theorem seg2_no_commit (w : World) : Event.redshiftCommit ∉ (seg2 w).trace :=
  dump_no_commit w.clock (seg1 w).pos false w.bucket (activitiesSpec (w.clock 0) w) w.faults2

theorem main_commit_mem (w : World) :
    Event.redshiftCommit ∈ (mainRun w).1 ↔ (mainRun w).2 = none := by
  cases h0 : (seg0 w).err with
  | some e0 =>
    rw [mainRun_eq0 w e0 h0]
    simp [seg0_no_commit]
  | none =>
    cases h1 : (seg1 w).err with
    | some e1 =>
      rw [mainRun_eq1 w e1 h0 h1]
      simp [seg0_no_commit, seg1_no_commit]
    | none =>
      cases h2 : (seg2 w).err with
      | some e2 =>
        rw [mainRun_eq2 w e2 h0 h1 h2]
        simp [seg0_no_commit, seg1_no_commit, seg2_no_commit]
      | none =>
        rw [mainRun_eq_ok w h0 h1 h2]
        simp

theorem seg0_upload (w : World) (d' b' p' : String) (rs : List (List (String × Value)))
    (h : Event.upload d' b' p' rs ∈ (seg0 w).trace) :
    d' = "users" ∧ b' = w.bucket ∧ p' = pathFor (w.clock 0) "users" "data" ∧
    w.faults0.extractFailAfter = none ∧ w.faults0.uploadFail = false ∧
    rs = writeRows w.clock 1 usersCols (usersQueryRows w.users) :=
  dump_upload w.clock 1 true w.bucket (usersSpec (w.clock 0) w) w.faults0 d' b' p' rs h

theorem seg1_upload (w : World) (d' b' p' : String) (rs : List (List (String × Value)))
    (h : Event.upload d' b' p' rs ∈ (seg1 w).trace) :
    d' = "projects" ∧ b' = w.bucket ∧ p' = pathFor (w.clock 0) "projects" "data" ∧
    w.faults1.extractFailAfter = none ∧ w.faults1.uploadFail = false ∧
    rs = writeRows w.clock (seg0 w).pos projectsCols (projectsQueryRows w.projects) :=
  dump_upload w.clock (seg0 w).pos false w.bucket (projectsSpec (w.clock 0) w) w.faults1
    d' b' p' rs h

theorem seg2_upload (w : World) (d' b' p' : String) (rs : List (List (String × Value)))
    (h : Event.upload d' b' p' rs ∈ (seg2 w).trace) :
    d' = "activities" ∧ b' = w.bucket ∧ p' = pathFor (w.clock 0) "activities" "incremental" ∧
    w.faults2.extractFailAfter = none ∧ w.faults2.uploadFail = false ∧
    rs = writeRows w.clock (seg1 w).pos activitiesCols
      (activitiesQueryRows w.activities (w.clock 0)) :=
  dump_upload w.clock (seg1 w).pos false w.bucket (activitiesSpec (w.clock 0) w) w.faults2
    d' b' p' rs h

theorem seg0_exec (w : World) (t : Nat) (d' : String)
    (h : Event.replicaExec t d' ∈ (seg0 w).trace) : t = 0 ∧ d' = "users" :=
  dump_exec w.clock 1 true w.bucket (usersSpec (w.clock 0) w) w.faults0 t d' h

theorem seg1_exec (w : World) (t : Nat) (d' : String)
    (h : Event.replicaExec t d' ∈ (seg1 w).trace) : t = 0 ∧ d' = "projects" :=
  dump_exec w.clock (seg0 w).pos false w.bucket (projectsSpec (w.clock 0) w) w.faults1 t d' h

theorem seg2_exec (w : World) (t : Nat) (d' : String)
    (h : Event.replicaExec t d' ∈ (seg2 w).trace) : t = 0 ∧ d' = "activities" :=
  dump_exec w.clock (seg1 w).pos false w.bucket (activitiesSpec (w.clock 0) w) w.faults2 t d' h

theorem seg0_write (w : World) (d' : String) (rec : List (String × Value))
    (h : Event.tempWrite d' rec ∈ (seg0 w).trace) :
    d' = "users" ∧ ∃ q r, r ∈ usersQueryRows w.users ∧
      rec = rowRecord (dateStr (w.clock q)) usersCols r :=
  dump_write w.clock 1 true w.bucket (usersSpec (w.clock 0) w) w.faults0 d' rec h

theorem seg1_write (w : World) (d' : String) (rec : List (String × Value))
    (h : Event.tempWrite d' rec ∈ (seg1 w).trace) :
    d' = "projects" ∧ ∃ q r, r ∈ projectsQueryRows w.projects ∧
      rec = rowRecord (dateStr (w.clock q)) projectsCols r :=
  dump_write w.clock (seg0 w).pos false w.bucket (projectsSpec (w.clock 0) w) w.faults1 d' rec h

theorem seg2_write (w : World) (d' : String) (rec : List (String × Value))
    (h : Event.tempWrite d' rec ∈ (seg2 w).trace) :
    d' = "activities" ∧ ∃ q r, r ∈ activitiesQueryRows w.activities (w.clock 0) ∧
      rec = rowRecord (dateStr (w.clock q)) activitiesCols r :=
  dump_write w.clock (seg1 w).pos false w.bucket (activitiesSpec (w.clock 0) w) w.faults2 d' rec h

theorem snapshotsOf_mem (tr : List Event) (v : Value) (h : v ∈ snapshotsOf tr) :
    ∃ d' rec, Event.tempWrite d' rec ∈ tr ∧ recSnap rec = some v := by
  rw [snapshotsOf, List.mem_filterMap] at h
  obtain ⟨e, he, hv⟩ := h
  cases e
  case tempWrite ds0 rec0 => exact ⟨ds0, rec0, he, by simpa [recEventSnap] using hv⟩
  all_goals simp [recEventSnap] at hv

theorem dump_decomp (c : Nat → Date) (p : Nat) (b : Bool) (k : String) (s : SpecRun)
    (f : Faults) : ∃ r, (dumpRun c p b k s f).trace = dumpBase b s.ds ++ r ∧
      (∀ t, Event.replicaTxBegin t ∉ r) ∧ (∀ t d', Event.replicaExec t d' ∉ r) := by
  refine ⟨(writeRows c p s.cols (yieldedOf f s.rows)).map (Event.tempWrite s.ds) ++
    dumpTail k s f (writeRows c p s.cols (yieldedOf f s.rows)),
    by rw [dump_trace_eq, List.append_assoc], ?_, ?_⟩
  · intro t h
    rcases List.mem_append.mp h with h1 | h2
    · obtain ⟨rec, _, he⟩ := List.mem_map.mp h1
      exact absurd he (by simp)
    · exact dumpTail_no_txBegin k s f _ t h2
  · intro t d' h
    rcases List.mem_append.mp h with h1 | h2
    · obtain ⟨rec, _, he⟩ := List.mem_map.mp h1
      exact absurd he (by simp)
    · exact dumpTail_no_exec k s f _ t d' h2


/-- A no-fault injection: every effect succeeds. -/
def noFaults : Faults := ⟨none, false, false⟩

/-- A sample dump specification used to exhibit concrete executions. -/
def cxDumpSpec : SpecRun := ⟨"users", "users/x/data", "users", usersCols, []⟩

/-- Claim C2, counterexample: a dump whose extraction raises immediately
creates the temporary file but never deletes it — `os.remove` (line 38) is
only reached on the success path, there is no try/finally. -/
theorem c2_counterexample :
    Event.tempCreate "users" ∈
      (dumpRun (fun _ => (⟨2023, 3, 5⟩ : Date)) 1 true "bkt" cxDumpSpec
        ⟨some 0, false, false⟩).trace ∧
    Event.tempRemove "users" ∉
      (dumpRun (fun _ => (⟨2023, 3, 5⟩ : Date)) 1 true "bkt" cxDumpSpec
        ⟨some 0, false, false⟩).trace := by
  decide

/-- Claim C2 (amended): every execution of `dump` creates the local temporary
file, and deletes it exactly when both the extraction and the upload succeed;
on an extraction failure mid-stream or an upload failure the temporary file is
left behind while the error propagates. -/
theorem c2_temp_cleanup (c : Nat → Date) (p : Nat) (b : Bool) (k : String)
    (s : SpecRun) (f : Faults) :
    Event.tempCreate s.ds ∈ (dumpRun c p b k s f).trace ∧
    (Event.tempRemove s.ds ∈ (dumpRun c p b k s f).trace ↔
      (f.extractFailAfter = none ∧ f.uploadFail = false)) :=
  ⟨dump_tempCreate c p b k s f, dump_tempRemove_iff c p b k s f⟩

/-- The dataset of the `k`-th dump of a run (`k < 3`). -/
def dsOf (k : Nat) : String :=
  if k = 0 then "users" else if k = 1 then "projects" else "activities"

/-- The injected faults of the `k`-th dump of a run (`k < 3`). -/
def faultsOf (w : World) (k : Nat) : Faults :=
  if k = 0 then w.faults0 else if k = 1 then w.faults1 else w.faults2

/-- Claim C5: if the extraction of the `k`-th dump raises mid-stream (after
any number `n` of rows were already written to the local file), then no object
is uploaded to any path for that dataset during the whole run. -/
theorem c5_extract_fail_no_upload (w : World) (k : Nat) (hk : k < 3) (n : Nat)
    (h : (faultsOf w k).extractFailAfter = some n) :
    ∀ b' p' rs, Event.upload (dsOf k) b' p' rs ∉ (mainRun w).1 := by
  intro b' p' rs hmem
  rcases main_mem w _ hmem with he | he | hs | hs | hs
  · exact absurd he (by simp)
  · exact absurd he (by simp)
  · obtain ⟨hds, -, -, hnone, -, -⟩ := seg0_upload w _ b' p' rs hs
    interval_cases k
    · simp [faultsOf] at h
      rw [hnone] at h
      cases h
    · rw [show dsOf 1 = "projects" from rfl] at hds
      exact absurd hds (by decide)
    · rw [show dsOf 2 = "activities" from rfl] at hds
      exact absurd hds (by decide)
  · obtain ⟨hds, -, -, hnone, -, -⟩ := seg1_upload w _ b' p' rs hs
    interval_cases k
    · rw [show dsOf 0 = "users" from rfl] at hds
      exact absurd hds (by decide)
    · simp [faultsOf] at h
      rw [hnone] at h
      cases h
    · rw [show dsOf 2 = "activities" from rfl] at hds
      exact absurd hds (by decide)
  · obtain ⟨hds, -, -, hnone, -, -⟩ := seg2_upload w _ b' p' rs hs
    interval_cases k
    · rw [show dsOf 0 = "users" from rfl] at hds
      exact absurd hds (by decide)
    · rw [show dsOf 1 = "projects" from rfl] at hds
      exact absurd hds (by decide)
    · simp [faultsOf] at h
      rw [hnone] at h
      cases h

/-- A world whose users dump fails immediately during extraction. -/
def cxFailW : World :=
  ⟨fun _ => ⟨2023, 3, 5⟩, [], [], [], "bkt", ⟨some 0, false, false⟩, noFaults, noFaults⟩

/-- Claim C5, witness: with the users extraction failing, no users object is
uploaded anywhere in the run. -/
theorem c5_witness :
    (faultsOf cxFailW 0).extractFailAfter = some 0 ∧
    Event.upload (dsOf 0) "bkt" "p" [] ∉ (mainRun cxFailW).1 :=
  ⟨rfl, c5_extract_fail_no_upload cxFailW 0 (by decide) 0 rfl "bkt" "p" []⟩

/-- Claim C1 as stated over a run: every record stamp produced anywhere in the
run equals the date embedded in the partition paths (which are all built from
the clock reading at position 0). -/
def c1Claim (w : World) : Prop :=
  ∀ v ∈ snapshotsOf (mainRun w).1, v = Value.vstr (dateStr (w.clock 0))

/-- A run that crosses midnight between the first and the second row of the
users dump: the partition date is read once in `main` (line 66) but the
per-row stamp re-reads the clock (lines 29-30). -/
def cxMidnightW : World :=
  ⟨fun q => if q ≤ 1 then ⟨2023, 3, 5⟩ else ⟨2023, 3, 6⟩,
   [⟨Value.vint 1, Value.vnull, Value.vnull, Value.vnull, Value.vstr "a"⟩,
    ⟨Value.vint 2, Value.vnull, Value.vnull, Value.vnull, Value.vstr "b"⟩],
   [], [], "bkt", noFaults, noFaults, noFaults⟩

/-- Claim C1, counterexample: when the clock's day changes mid-run, a record
is stamped with a snapshot date different from the one embedded in the
partition path of the same run. -/
theorem c1_counterexample : ¬ c1Claim cxMidnightW := by
  unfold c1Claim
  decide

/-- Claim C1 (amended): in any run during which every clock reading returns
the same date (the run does not cross midnight), every record produced by
every dump carries that one date as its `snapshot_date`, and every uploaded
blob lives at the partition path embedding exactly that date. -/
theorem c1_snapshot_uniform (w : World) (hc : ∀ q, w.clock q = w.clock 0) :
    c1Claim w ∧
    (∀ ds b' p' rs, Event.upload ds b' p' rs ∈ (mainRun w).1 →
      (ds = "users" ∧ p' = pathFor (w.clock 0) "users" "data") ∨
      (ds = "projects" ∧ p' = pathFor (w.clock 0) "projects" "data") ∨
      (ds = "activities" ∧ p' = pathFor (w.clock 0) "activities" "incremental")) := by
  constructor
  · intro v hv
    obtain ⟨d', rec, hmem, hsnap⟩ := snapshotsOf_mem _ v hv
    rcases main_mem w _ hmem with he | he | hs | hs | hs
    · exact absurd he (by simp)
    · exact absurd he (by simp)
    · obtain ⟨-, q, r, -, hrec⟩ := seg0_write w d' rec hs
      rw [hrec, recSnap_rowRecord _ _ _ (by decide)] at hsnap
      rw [← Option.some.inj hsnap, hc q]
    · obtain ⟨-, q, r, -, hrec⟩ := seg1_write w d' rec hs
      rw [hrec, recSnap_rowRecord _ _ _ (by decide)] at hsnap
      rw [← Option.some.inj hsnap, hc q]
    · obtain ⟨-, q, r, -, hrec⟩ := seg2_write w d' rec hs
      rw [hrec, recSnap_rowRecord _ _ _ (by decide)] at hsnap
      rw [← Option.some.inj hsnap, hc q]
  · intro ds b' p' rs hmem
    rcases main_mem w _ hmem with he | he | hs | hs | hs
    · exact absurd he (by simp)
    · exact absurd he (by simp)
    · obtain ⟨hds, -, hp, -, -, -⟩ := seg0_upload w ds b' p' rs hs
      exact Or.inl ⟨hds, hp⟩
    · obtain ⟨hds, -, hp, -, -, -⟩ := seg1_upload w ds b' p' rs hs
      exact Or.inr (Or.inl ⟨hds, hp⟩)
    · obtain ⟨hds, -, hp, -, -, -⟩ := seg2_upload w ds b' p' rs hs
      exact Or.inr (Or.inr ⟨hds, hp⟩)

/-- A fault-free world with a constant clock, used as a witness run. -/
def okW : World :=
  ⟨fun _ => ⟨2023, 3, 5⟩,
   [⟨Value.vint 1, Value.vnull, Value.vnull, Value.vnull, Value.vstr "a"⟩],
   [], [], "bkt", noFaults, noFaults, noFaults⟩

/-- Claim C1, witness: a constant-clock run satisfies the uniform-stamp
invariant. -/
theorem c1_witness : (∀ q, okW.clock q = okW.clock 0) ∧ c1Claim okW :=
  ⟨fun _ => rfl, (c1_snapshot_uniform okW (fun _ => rfl)).1⟩

/-- The error value a faulty dump raises, by fault priority. -/
def faultErr (ds : String) (f : Faults) : Err :=
  match f.extractFailAfter with
  | some _ => Err.extraction ds
  | none => if f.uploadFail then Err.uploadErr ds else Err.loadErr ds

theorem dumpErr_some (ds : String) (f : Faults) (h : hasFault f = true) :
    dumpErr ds f = some (faultErr ds f) := by
  rcases f with ⟨ef, uf, cf⟩
  rcases ef with _ | n <;> cases uf <;> cases cf <;> simp_all [hasFault, dumpErr, faultErr]

theorem seg0_err (w : World) : (seg0 w).err = dumpErr "users" w.faults0 :=
  dump_err_eq w.clock 1 true w.bucket (usersSpec (w.clock 0) w) w.faults0

theorem seg1_err (w : World) : (seg1 w).err = dumpErr "projects" w.faults1 :=
  dump_err_eq w.clock (seg0 w).pos false w.bucket (projectsSpec (w.clock 0) w) w.faults1

theorem seg2_err (w : World) : (seg2 w).err = dumpErr "activities" w.faults2 :=
  dump_err_eq w.clock (seg1 w).pos false w.bucket (activitiesSpec (w.clock 0) w) w.faults2

theorem seg2_copy_mem (w : World) (h : hasFault w.faults2 = false) :
    Event.copyCmd "activities" ("s3://" ++ w.bucket ++ "/" ++
      pathFor (w.clock 0) "activities" "incremental") ∈ (seg2 w).trace :=
  dump_copy_mem_ok w.clock (seg1 w).pos false w.bucket (activitiesSpec (w.clock 0) w)
    w.faults2 h

/-- Claim C3: if the `k`-th dump fails (and the dumps before it succeeded),
the run terminates with exactly that dump's error, the warehouse commit is
never issued, no bulk load becomes visible, and the dumps after `k` are never
attempted (no cursor execute for their datasets appears in the trace). -/
theorem c3_abort_on_failure (w : World) (k : Nat) (hk : k < 3)
    (hf : hasFault (faultsOf w k) = true)
    (hprev : ∀ j, j < k → hasFault (faultsOf w j) = false) :
    (mainRun w).2 = some (faultErr (dsOf k) (faultsOf w k)) ∧
    Event.redshiftCommit ∉ (mainRun w).1 ∧
    visibleTables (mainRun w).1 = [] ∧
    (∀ j, k < j → j < 3 → ∀ t, Event.replicaExec t (dsOf j) ∉ (mainRun w).1) := by
  interval_cases k
  · have hf0 : hasFault w.faults0 = true := by simpa [faultsOf] using hf
    have h0 : (seg0 w).err = some (faultErr "users" w.faults0) := by
      rw [seg0_err, dumpErr_some _ _ hf0]
    have hmain := mainRun_eq0 w _ h0
    refine ⟨by rw [hmain]; simp [dsOf, faultsOf], ?_, ?_, ?_⟩
    · intro hc
      have := (main_commit_mem w).mp hc
      rw [hmain] at this
      cases this
    · rw [main_visible w, hmain]
      simp
    · intro j hlo hhi t hmem
      rw [hmain] at hmem
      rcases List.mem_append.mp hmem with hseg | hrest
      · obtain ⟨-, hds⟩ := seg0_exec w t _ hseg
        interval_cases j
        · exact absurd hds (by decide)
        · exact absurd hds (by decide)
      · simp at hrest
  · have hok0 : hasFault w.faults0 = false := by
      simpa [faultsOf] using hprev 0 (by omega)
    have h0 : (seg0 w).err = none := by
      rw [seg0_err]
      exact (dumpErr_none_iff _ _).mpr hok0
    have hf1 : hasFault w.faults1 = true := by simpa [faultsOf] using hf
    have h1 : (seg1 w).err = some (faultErr "projects" w.faults1) := by
      rw [seg1_err, dumpErr_some _ _ hf1]
    have hmain := mainRun_eq1 w _ h0 h1
    refine ⟨by rw [hmain]; simp [dsOf, faultsOf], ?_, ?_, ?_⟩
    · intro hc
      have := (main_commit_mem w).mp hc
      rw [hmain] at this
      cases this
    · rw [main_visible w, hmain]
      simp
    · intro j hlo hhi t hmem
      rw [hmain] at hmem
      interval_cases j
      rcases List.mem_append.mp hmem with hseg | hrest
      · rcases List.mem_append.mp hseg with hs0 | hs1
        · obtain ⟨-, hds⟩ := seg0_exec w t _ hs0
          exact absurd hds (by decide)
        · obtain ⟨-, hds⟩ := seg1_exec w t _ hs1
          exact absurd hds (by decide)
      · simp at hrest
  · have hok0 : hasFault w.faults0 = false := by
      simpa [faultsOf] using hprev 0 (by omega)
    have hok1 : hasFault w.faults1 = false := by
      simpa [faultsOf] using hprev 1 (by omega)
    have h0 : (seg0 w).err = none := by
      rw [seg0_err]
      exact (dumpErr_none_iff _ _).mpr hok0
    have h1 : (seg1 w).err = none := by
      rw [seg1_err]
      exact (dumpErr_none_iff _ _).mpr hok1
    have hf2 : hasFault w.faults2 = true := by simpa [faultsOf] using hf
    have h2 : (seg2 w).err = some (faultErr "activities" w.faults2) := by
      rw [seg2_err, dumpErr_some _ _ hf2]
    have hmain := mainRun_eq2 w _ h0 h1 h2
    refine ⟨by rw [hmain]; simp [dsOf, faultsOf], ?_, ?_, ?_⟩
    · intro hc
      have := (main_commit_mem w).mp hc
      rw [hmain] at this
      cases this
    · rw [main_visible w, hmain]
      simp
    · intro j hlo hhi t hmem
      omega

/-- Claim C3, witness: with the users extraction failing, the run aborts with
that extraction error, commits nothing, and never executes the later dumps. -/
theorem c3_witness :
    hasFault (faultsOf cxFailW 0) = true ∧
    (mainRun cxFailW).2 = some (faultErr (dsOf 0) (faultsOf cxFailW 0)) ∧
    Event.redshiftCommit ∉ (mainRun cxFailW).1 ∧
    visibleTables (mainRun cxFailW).1 = [] ∧
    (∀ j, 0 < j → j < 3 → ∀ t, Event.replicaExec t (dsOf j) ∉ (mainRun cxFailW).1) := by
  have h := c3_abort_on_failure cxFailW 0 (by decide) (by decide)
    (fun j hj => absurd hj (Nat.not_lt_zero j))
  exact ⟨by decide, h.1, h.2.1, h.2.2.1, h.2.2.2⟩

/-- Claim C4: when all three dumps succeed, the warehouse commit is issued
exactly once, strictly after the bulk-load statement of the last dump, and all
three bulk loads become visible together at that commit. -/
theorem c4_commit_once_after_loads (w : World)
    (h0 : hasFault w.faults0 = false) (h1 : hasFault w.faults1 = false)
    (h2 : hasFault w.faults2 = false) :
    (mainRun w).2 = none ∧
    (∃ front, (mainRun w).1 = front ++ [Event.redshiftCommit] ∧
      Event.redshiftCommit ∉ front ∧
      Event.copyCmd "activities" ("s3://" ++ w.bucket ++ "/" ++
        pathFor (w.clock 0) "activities" "incremental") ∈ front) ∧
    visibleTables (mainRun w).1 = ["users", "projects", "activities"] := by
  have e0 : (seg0 w).err = none := by
    rw [seg0_err]
    exact (dumpErr_none_iff _ _).mpr h0
  have e1 : (seg1 w).err = none := by
    rw [seg1_err]
    exact (dumpErr_none_iff _ _).mpr h1
  have e2 : (seg2 w).err = none := by
    rw [seg2_err]
    exact (dumpErr_none_iff _ _).mpr h2
  have hmain := mainRun_eq_ok w e0 e1 e2
  refine ⟨by rw [hmain],
    ⟨(seg0 w).trace ++ (seg1 w).trace ++ (seg2 w).trace ++ [Event.replicaTxEnd 0],
      ?_, ?_, ?_⟩, ?_⟩
  · rw [hmain]
    simp
  · simp [List.mem_append, seg0_no_commit w, seg1_no_commit w, seg2_no_commit w]
  · have hc := seg2_copy_mem w h2
    simp [List.mem_append, hc]
  · rw [main_visible w, hmain]
    simp

/-- Claim C4, witness: the fault-free sample run commits once and makes all
three tables visible. -/
theorem c4_witness :
    hasFault okW.faults0 = false ∧ (mainRun okW).2 = none ∧
    visibleTables (mainRun okW).1 = ["users", "projects", "activities"] := by
  have h := c4_commit_once_after_loads okW (by decide) (by decide) (by decide)
  exact ⟨by decide, h.1, h.2.2⟩

theorem seg0_no_txEnd (w : World) (t : Nat) : Event.replicaTxEnd t ∉ (seg0 w).trace :=
  dump_no_txEnd w.clock 1 true w.bucket (usersSpec (w.clock 0) w) w.faults0 t

theorem seg1_no_txEnd (w : World) (t : Nat) : Event.replicaTxEnd t ∉ (seg1 w).trace :=
  dump_no_txEnd w.clock (seg0 w).pos false w.bucket (projectsSpec (w.clock 0) w) w.faults1 t

theorem seg2_no_txEnd (w : World) (t : Nat) : Event.replicaTxEnd t ∉ (seg2 w).trace :=
  dump_no_txEnd w.clock (seg1 w).pos false w.bucket (activitiesSpec (w.clock 0) w) w.faults2 t

theorem seg1_no_txBegin (w : World) (t : Nat) :
    Event.replicaTxBegin t ∉ (seg1 w).trace := by
  intro h
  have hb := (dump_txBegin w.clock (seg0 w).pos false w.bucket (projectsSpec (w.clock 0) w)
    w.faults1 t h).1
  cases hb

theorem seg2_no_txBegin (w : World) (t : Nat) :
    Event.replicaTxBegin t ∉ (seg2 w).trace := by
  intro h
  have hb := (dump_txBegin w.clock (seg1 w).pos false w.bucket (activitiesSpec (w.clock 0) w)
    w.faults2 t h).1
  cases hb

/-- Claim C8: every run opens a single replica-side transaction (id 0) with
the implicit BEGIN issued before the first cursor execute, every cursor
execute of the run happens inside that one transaction, and the transaction
is ended only after the last execute, no second transaction ever being
begun. -/
theorem c8_single_source_transaction (w : World) :
    ∃ mid post,
      (mainRun w).1 = [Event.tempCreate "users", Event.replicaTxBegin 0,
        Event.replicaExec 0 "users"] ++ mid ++ [Event.replicaTxEnd 0] ++ post ∧
      (∀ t ds, Event.replicaExec t ds ∈ (mainRun w).1 → t = 0) ∧
      (∀ t ds, Event.replicaExec t ds ∉ post) ∧
      (∀ t, Event.replicaTxBegin t ∉ mid) ∧ (∀ t, Event.replicaTxBegin t ∉ post) ∧
      (∀ t, Event.replicaTxEnd t ∉ mid) := by
  have hexec : ∀ t ds, Event.replicaExec t ds ∈ (mainRun w).1 → t = 0 := by
    intro t ds h
    rcases main_mem w _ h with he | he | hs | hs | hs
    · exact absurd he (by simp)
    · exact absurd he (by simp)
    · exact (seg0_exec w t ds hs).1
    · exact (seg1_exec w t ds hs).1
    · exact (seg2_exec w t ds hs).1
  obtain ⟨r0, hr0, hnb0, hne0⟩ :=
    dump_decomp w.clock 1 true w.bucket (usersSpec (w.clock 0) w) w.faults0
  have hr0' : (seg0 w).trace = [Event.tempCreate "users", Event.replicaTxBegin 0,
      Event.replicaExec 0 "users"] ++ r0 := hr0
  have hr0sub : ∀ e, e ∈ r0 → e ∈ (seg0 w).trace := by
    intro e he
    rw [hr0']
    exact List.mem_append_right _ he
  cases h0 : (seg0 w).err with
  | some e0 =>
    refine ⟨r0, [], ?_, hexec, by simp, ?_, by simp, ?_⟩
    · rw [mainRun_eq0 w e0 h0, hr0']
      simp
    · intro t ht
      exact hnb0 t ht
    · intro t ht
      exact seg0_no_txEnd w t (hr0sub _ ht)
  | none =>
    cases h1 : (seg1 w).err with
    | some e1 =>
      refine ⟨r0 ++ (seg1 w).trace, [], ?_, hexec, by simp, ?_, by simp, ?_⟩
      · rw [mainRun_eq1 w e1 h0 h1, hr0']
        simp
      · intro t ht
        rcases List.mem_append.mp ht with ha | hb
        · exact hnb0 t ha
        · exact seg1_no_txBegin w t hb
      · intro t ht
        rcases List.mem_append.mp ht with ha | hb
        · exact seg0_no_txEnd w t (hr0sub _ ha)
        · exact seg1_no_txEnd w t hb
    | none =>
      cases h2 : (seg2 w).err with
      | some e2 =>
        refine ⟨r0 ++ ((seg1 w).trace ++ (seg2 w).trace), [], ?_, hexec, by simp, ?_,
          by simp, ?_⟩
        · rw [mainRun_eq2 w e2 h0 h1 h2, hr0']
          simp
        · intro t ht
          rcases List.mem_append.mp ht with ha | hb
          · exact hnb0 t ha
          · rcases List.mem_append.mp hb with hb1 | hb2
            · exact seg1_no_txBegin w t hb1
            · exact seg2_no_txBegin w t hb2
        · intro t ht
          rcases List.mem_append.mp ht with ha | hb
          · exact seg0_no_txEnd w t (hr0sub _ ha)
          · rcases List.mem_append.mp hb with hb1 | hb2
            · exact seg1_no_txEnd w t hb1
            · exact seg2_no_txEnd w t hb2
      | none =>
        refine ⟨r0 ++ ((seg1 w).trace ++ (seg2 w).trace), [Event.redshiftCommit], ?_,
          hexec, by simp, ?_, by simp, ?_⟩
        · rw [mainRun_eq_ok w h0 h1 h2, hr0']
          simp
        · intro t ht
          rcases List.mem_append.mp ht with ha | hb
          · exact hnb0 t ha
          · rcases List.mem_append.mp hb with hb1 | hb2
            · exact seg1_no_txBegin w t hb1
            · exact seg2_no_txBegin w t hb2
        · intro t ht
          rcases List.mem_append.mp ht with ha | hb
          · exact seg0_no_txEnd w t (hr0sub _ ha)
          · rcases List.mem_append.mp hb with hb1 | hb2
            · exact seg1_no_txEnd w t hb1
            · exact seg2_no_txEnd w t hb2

theorem seg0_execDS (w : World) : execDS (seg0 w).trace = ["users"] :=
  execDS_dump w.clock 1 true w.bucket (usersSpec (w.clock 0) w) w.faults0

theorem seg1_execDS (w : World) : execDS (seg1 w).trace = ["projects"] :=
  execDS_dump w.clock (seg0 w).pos false w.bucket (projectsSpec (w.clock 0) w) w.faults1

theorem seg2_execDS (w : World) : execDS (seg2 w).trace = ["activities"] :=
  execDS_dump w.clock (seg1 w).pos false w.bucket (activitiesSpec (w.clock 0) w) w.faults2

theorem seg0_upload_mem (w : World) (h : hasFault w.faults0 = false) :
    Event.upload "users" w.bucket (pathFor (w.clock 0) "users" "data")
      (writeRows w.clock 1 usersCols (usersQueryRows w.users)) ∈ (seg0 w).trace :=
  dump_upload_mem_ok w.clock 1 true w.bucket (usersSpec (w.clock 0) w) w.faults0 h

theorem seg1_upload_mem (w : World) (h : hasFault w.faults1 = false) :
    Event.upload "projects" w.bucket (pathFor (w.clock 0) "projects" "data")
      (writeRows w.clock (seg0 w).pos projectsCols (projectsQueryRows w.projects)) ∈
      (seg1 w).trace :=
  dump_upload_mem_ok w.clock (seg0 w).pos false w.bucket (projectsSpec (w.clock 0) w)
    w.faults1 h

theorem seg2_upload_mem (w : World) (h : hasFault w.faults2 = false) :
    Event.upload "activities" w.bucket (pathFor (w.clock 0) "activities" "incremental")
      (writeRows w.clock (seg1 w).pos activitiesCols
        (activitiesQueryRows w.activities (w.clock 0))) ∈ (seg2 w).trace :=
  dump_upload_mem_ok w.clock (seg1 w).pos false w.bucket (activitiesSpec (w.clock 0) w)
    w.faults2 h

theorem lookup_created_at (s : String) (a : ActivityRow) :
    (rowRecord s activitiesCols (activityToRow a)).lookup "created_at" =
      some (Value.vts a.created_at) := rfl

/-- Claim C10: a fault-free run executes exactly three dumps, in the fixed
order users, projects, activities; users and projects are full-table dumps
uploaded under leaf `data` (one record per source row), while activities is
incremental: uploaded under leaf `incremental` and containing exactly the
rows whose `created_at` date equals the snapshot date. -/
theorem c10_three_dumps (w : World)
    (h0 : hasFault w.faults0 = false) (h1 : hasFault w.faults1 = false)
    (h2 : hasFault w.faults2 = false) :
    execDS (mainRun w).1 = ["users", "projects", "activities"] ∧
    (∃ rs, Event.upload "users" w.bucket (pathFor (w.clock 0) "users" "data") rs ∈
      (mainRun w).1 ∧ rs.length = w.users.length) ∧
    (∃ rs, Event.upload "projects" w.bucket (pathFor (w.clock 0) "projects" "data") rs ∈
      (mainRun w).1 ∧ rs.length = w.projects.length) ∧
    (∃ rs, Event.upload "activities" w.bucket
        (pathFor (w.clock 0) "activities" "incremental") rs ∈ (mainRun w).1 ∧
      rs.length =
        (w.activities.filter (fun a => decide (a.created_at.date = w.clock 0))).length ∧
      (∀ rec ∈ rs, ∀ ts : Timestamp, rec.lookup "created_at" = some (Value.vts ts) →
        ts.date = w.clock 0)) := by
  have e0 : (seg0 w).err = none := by
    rw [seg0_err]
    exact (dumpErr_none_iff _ _).mpr h0
  have e1 : (seg1 w).err = none := by
    rw [seg1_err]
    exact (dumpErr_none_iff _ _).mpr h1
  have e2 : (seg2 w).err = none := by
    rw [seg2_err]
    exact (dumpErr_none_iff _ _).mpr h2
  have hmain := mainRun_eq_ok w e0 e1 e2
  refine ⟨?_, ?_, ?_, ?_⟩
  · rw [hmain]
    show execDS ((seg0 w).trace ++ (seg1 w).trace ++ (seg2 w).trace ++
      [Event.replicaTxEnd 0, Event.redshiftCommit]) = _
    rw [execDS_append, execDS_append, execDS_append, seg0_execDS, seg1_execDS, seg2_execDS]
    rfl
  · refine ⟨writeRows w.clock 1 usersCols (usersQueryRows w.users), ?_, ?_⟩
    · rw [hmain]
      simp only [Prod.fst]
      exact List.mem_append_left _ (List.mem_append_left _
        (List.mem_append_left _ (seg0_upload_mem w h0)))
    · rw [writeRows_length]
      simp [usersQueryRows]
  · refine ⟨writeRows w.clock (seg0 w).pos projectsCols (projectsQueryRows w.projects),
      ?_, ?_⟩
    · rw [hmain]
      simp only [Prod.fst]
      exact List.mem_append_left _ (List.mem_append_left _
        (List.mem_append_right _ (seg1_upload_mem w h1)))
    · rw [writeRows_length]
      simp [projectsQueryRows]
  · refine ⟨writeRows w.clock (seg1 w).pos activitiesCols
      (activitiesQueryRows w.activities (w.clock 0)), ?_, ?_, ?_⟩
    · rw [hmain]
      simp only [Prod.fst]
      exact List.mem_append_left _ (List.mem_append_right _ (seg2_upload_mem w h2))
    · rw [writeRows_length]
      simp [activitiesQueryRows]
    · intro rec hrec ts hlook
      obtain ⟨q, r, hr, he⟩ := writeRows_mem w.clock _ _ _ rec hrec
      rw [activitiesQueryRows, List.mem_map] at hr
      obtain ⟨a, ha, har⟩ := hr
      rw [List.mem_filter] at ha
      rw [he, ← har, lookup_created_at] at hlook
      have hts : Value.vts a.created_at = Value.vts ts := Option.some.inj hlook
      cases hts
      exact of_decide_eq_true ha.2

/-- A fault-free world with one activity row on the snapshot date and one on
the previous day. -/
def okC10W : World :=
  ⟨fun _ => ⟨2023, 3, 5⟩, [], [],
   [⟨Value.vint 1, Value.vstr "push", ⟨⟨2023, 3, 5⟩, 10⟩, Value.vnull, Value.vint 1,
      Value.vint 1⟩,
    ⟨Value.vint 2, Value.vstr "pull", ⟨⟨2023, 3, 4⟩, 10⟩, Value.vnull, Value.vint 1,
      Value.vint 1⟩],
   "bkt", noFaults, noFaults, noFaults⟩

/-- Claim C10, witness: a run over one matching and one non-matching activity
row uploads exactly the matching one under leaf `incremental`. -/
theorem c10_witness :
    hasFault okC10W.faults0 = false ∧
    execDS (mainRun okC10W).1 = ["users", "projects", "activities"] ∧
    (∃ rs, Event.upload "activities" okC10W.bucket
        (pathFor (okC10W.clock 0) "activities" "incremental") rs ∈ (mainRun okC10W).1 ∧
      rs.length = (okC10W.activities.filter
        (fun a => decide (a.created_at.date = okC10W.clock 0))).length ∧
      (∀ rec ∈ rs, ∀ ts : Timestamp, rec.lookup "created_at" = some (Value.vts ts) →
        ts.date = okC10W.clock 0)) := by
  have h := c10_three_dumps okC10W (by decide) (by decide) (by decide)
  exact ⟨by decide, h.1, h.2.2.2⟩
